import Mathlib

/-!
Verification of the screenplay-processing core of `process_scripts.py`
(`process_movie_script`): the line classification / block assembly loop
(source lines 41–152) and the paragraph consolidation pass (source lines
154–195).  Lines are modelled as `List Char`; the Python string operations
used by the source (`strip`, `isupper`, `lower`, `split`, `startswith`,
substring test, `re.match(r'^\d+', ·)` and the `(CONT'D)`-stripping
`re.sub`) are modelled character-by-character below.
-/

namespace Script

/-- Python whitespace for `str.strip` / `str.isspace` (ASCII model):
space, tab, newline, carriage return, vertical tab, form feed. -/
def isPySpace (c : Char) : Bool :=
  c = ' ' || c = '\t' || c = '\n' || c = '\r' || c = Char.ofNat 11 || c = Char.ofNat 12

/-- `line.strip()`: drop whitespace from both ends. -/
def pyStrip (s : List Char) : List Char :=
  ((s.dropWhile isPySpace).reverse.dropWhile isPySpace).reverse

/-- A cased character (ASCII model of Python's notion used by `isupper`). -/
def isCased (c : Char) : Bool := c.isAlpha

/-- `s.isupper()`: at least one cased character, and every cased character
is upper case. -/
def pyIsUpper (s : List Char) : Bool :=
  s.any isCased && s.all (fun c => !isCased c || c.isUpper)

/-- `s.lower()` (ASCII model). -/
def pyLower (s : List Char) : List Char := s.map Char.toLower

/-- `s.startswith(p)` on character lists. -/
def leadsWith : List Char → List Char → Bool
  | [], _ => true
  | _ :: _, [] => false
  | p :: ps, c :: cs => p = c && leadsWith ps cs

/-- `p in s`: `p` occurs as a contiguous segment of `s`. -/
def occursB : List Char → List Char → Bool
  | p, [] => leadsWith p []
  | p, c :: cs => leadsWith p (c :: cs) || occursB p cs

/-- `len(s.split())`: the number of maximal runs of non-whitespace
characters. -/
def tokenCount (s : List Char) : Nat :=
  (s.foldl
    (fun (p : Nat × Bool) c =>
      if isPySpace c then (p.1, false)
      else (if p.2 then p.1 else p.1 + 1, true))
    ((0 : Nat), false)).1

/-- `re.match(r'^\d+', s)`: the first character is a digit. -/
def startsDigit : List Char → Bool
  | [] => false
  | c :: _ => c.isDigit

/-- Shorthand for writing concrete lines. -/
def toL (s : String) : List Char := s.toList

/-! ### The `(CONT'D)` stripping regex (source line 89)

`re.sub(r"\s*\([Cc][Oo][Nn][Tt][''’]?[Dd]\)", '', stripped)`:
delete every occurrence of optional whitespace followed by a
parenthesised `CONT'D` (any letter case, straight or curly or absent
apostrophe), scanning left to right, non-overlapping. -/

/-- Straight (U+0027) or curly (U+2019) apostrophe, the character class of
the source regex. -/
def isApos (c : Char) : Bool := c = '\'' || c = Char.ofNat 8217

/-- Match `[Dd]\)` at the head, returning the rest. -/
def matchDParen : List Char → Option (List Char)
  | d :: c :: rest => if (d = 'D' || d = 'd') && c = ')' then some rest else none
  | _ => none

/-- Match `[''’]?[Dd]\)` at the head (the optional apostrophe
backtracks exactly as the regex engine would). -/
def matchTail (s : List Char) : Option (List Char) :=
  match s with
  | a :: rest => if isApos a then matchDParen rest else matchDParen s
  | [] => none

/-- Try to match the whole pattern `\s*\([Cc][Oo][Nn][Tt][''’]?[Dd]\)`
at the head of `s`, returning the suffix after the match. -/
def matchContAt (s : List Char) : Option (List Char) :=
  match s.dropWhile isPySpace with
  | p :: c :: o :: n :: t :: rest =>
    if p = '(' && (c = 'C' || c = 'c') && (o = 'O' || o = 'o')
        && (n = 'N' || n = 'n') && (t = 'T' || t = 't') then
      matchTail rest
    else none
  | _ => none

/-- `re.sub` scan with explicit fuel (the fuel is only there to make the
recursion structural; `s.length` is always enough, see `stripContD`). -/
def stripContDF : Nat → List Char → List Char
  | 0, s => s
  | _ + 1, [] => []
  | fuel + 1, c :: rest =>
    match matchContAt (c :: rest) with
    | some r => stripContDF fuel r
    | none => c :: stripContDF fuel rest

/-- The full `re.sub(r"\s*\([Cc][Oo][Nn][Tt][''’]?[Dd]\)", '', s)`. -/
def stripContD (s : List Char) : List Char := stripContDF s.length s

/-! ### The record data model (the dicts appended to `processed_data`) -/

/-- The `'type'` discriminator of an output record. -/
inductive RType where
  | SCENE
  | CHARACTER
  | DIALOGUE
  | ACTION
deriving DecidableEq

/-- One output record: `{'type': …, 'text': …, 'scene': …}`.  SCENE
records carry `scene = none` (the source omits the key; the consolidation
pass reads it with `.get`, which yields `None`). -/
structure Record where
  rtype : RType
  text : List Char
  scene : Option (List Char)
deriving DecidableEq

/-- The assembler's loop state (source lines 35–39). -/
structure AState where
  processed : List Record
  currentScene : Option (List Char)
  currentCharacter : Option (List Char)
  dialogueBuffer : List (List Char)
  inDialogueMode : Bool
deriving DecidableEq

/-- `' '.join(buffer)`. -/
def joinSpace : List (List Char) → List Char
  | [] => []
  | [b] => b
  | b :: bs => b ++ ' ' :: joinSpace bs

/-- The Dialogue record flushed from the current buffer. -/
def dialogueRecordOf (st : AState) : Record :=
  ⟨RType.DIALOGUE, joinSpace st.dialogueBuffer, st.currentScene⟩

/-- Flush with full reset (source lines 45–54 and 60–68): if in dialogue
mode with a non-empty buffer, emit the buffered Dialogue record and clear
buffer, mode and character; otherwise leave the state unchanged. -/
def flushReset (st : AState) : AState :=
  if st.inDialogueMode && !st.dialogueBuffer.isEmpty then
    { st with processed := st.processed ++ [dialogueRecordOf st],
              dialogueBuffer := [], inDialogueMode := false,
              currentCharacter := none }
  else st

/-- Flush keeping mode and character (source lines 96–102, before a cue is
emitted): only the buffer is cleared. -/
def flushKeep (st : AState) : AState :=
  if st.inDialogueMode && !st.dialogueBuffer.isEmpty then
    { st with processed := st.processed ++ [dialogueRecordOf st],
              dialogueBuffer := [] }
  else st

/-- `stripped.isupper() and len(stripped) > 5` (source line 58). -/
def headingCand (stripped : List Char) : Bool :=
  pyIsUpper stripped && decide (stripped.length > 5)

/-- The location-marker test of source line 79:
`any(x in stripped for x in ['INT.', 'EXT.', 'INT/EXT']) or len(stripped) > 20`. -/
def isSceneMarked (stripped : List Char) : Bool :=
  [toL "INT.", toL "EXT.", toL "INT/EXT"].any (fun m => occursB m stripped)
    || decide (stripped.length > 20)

/-- The character-cue qualification of source lines 92–94 on the cleaned
candidate: upper case, length ≤ 30, ≤ 4 tokens, and none of the exclusion
markers occurs. -/
def cueQual (cleanChar : List Char) : Bool :=
  pyIsUpper cleanChar && decide (cleanChar.length ≤ 30)
    && decide (tokenCount cleanChar ≤ 4)
    && !([toL "INT.", toL "EXT.", toL "FADE", toL "CUT TO",
          toL "DISSOLVE", toL "THE END"].any (fun m => occursB m cleanChar))

/-- Python truthiness of the `current_character` field (`None` and the
empty string are falsy). -/
def truthyStr : Option (List Char) → Bool
  | none => false
  | some s => !s.isEmpty

/-- `any(stripped.lower().startswith(word) for word in [...])`
(source line 119). -/
def startsActionWord (stripped : List Char) : Bool :=
  [toL "the ", toL "a ", toL "an ", toL "he ", toL "she ", toL "they ",
   toL "it ", toL "as ", toL "suddenly "].any
    (fun w => leadsWith w (pyLower stripped))

/-- The dialogue-vs-action test of source lines 118–119:
`(line and not line[0].isspace() and len(line) > 50) or any(...)`.
The indexing `line[0]` is modelled as fallible; the truthiness guard
`line and …` short-circuits on the empty line, so the index is only taken
on a non-empty line and the result is never `none` (see `c8_totality`). -/
def actionSwitchTest (line stripped : List Char) : Option Bool :=
  match line with
  | [] => some (startsActionWord stripped)
  | c :: _ =>
    (some (!isPySpace c && decide (line.length > 50))).map
      (fun b => b || startsActionWord stripped)

/-! ### The branch actions of the main loop -/

/-- Emit a SCENE record and update the current scene (source lines
71–77 and 79–85; the emitted dict has no `scene` key). -/
def emitScene (st : AState) (stripped : List Char) : AState :=
  { st with currentScene := some stripped,
            processed := st.processed ++ [⟨RType.SCENE, stripped, none⟩] }

/-- Emit a CHARACTER record after the keep-mode flush and enter dialogue
mode (source lines 96–111). -/
def emitCue (st : AState) (cleanChar : List Char) : AState :=
  let st2 := flushKeep st
  { st2 with currentCharacter := some cleanChar,
             processed := st2.processed ++
               [⟨RType.CHARACTER, cleanChar, st2.currentScene⟩],
             inDialogueMode := true }

/-- Dialogue is reclassified as action: flush the buffer (if non-empty),
leave dialogue mode and emit an ACTION record (source lines 120–134). -/
def emitActionSwitch (st : AState) (stripped : List Char) : AState :=
  let st2 :=
    if !st.dialogueBuffer.isEmpty then
      { st with processed := st.processed ++ [dialogueRecordOf st],
                dialogueBuffer := [] }
    else st
  { st2 with inDialogueMode := false, currentCharacter := none,
             processed := st2.processed ++
               [⟨RType.ACTION, stripped, st2.currentScene⟩] }

/-- Append a dialogue-continuation line to the buffer (source line 137). -/
def bufferLine (st : AState) (stripped : List Char) : AState :=
  { st with dialogueBuffer := st.dialogueBuffer ++ [stripped] }

/-- Emit an ACTION record while idle (source lines 140–144). -/
def emitAction (st : AState) (stripped : List Char) : AState :=
  { st with processed := st.processed ++
              [⟨RType.ACTION, stripped, st.currentScene⟩] }

/-- One iteration of the main loop (source lines 41–144). -/
def processLine (st : AState) (line : List Char) : AState :=
  let stripped := pyStrip line
  if stripped.isEmpty then
    flushReset st
  else
    let st1 := if headingCand stripped then flushReset st else st
    if headingCand stripped && startsDigit stripped then
      emitScene st1 stripped
    else if headingCand stripped && isSceneMarked stripped then
      emitScene st1 stripped
    else
      let cleanChar := pyStrip (stripContD stripped)
      if cueQual cleanChar then
        emitCue st1 cleanChar
      else if st1.inDialogueMode && truthyStr st1.currentCharacter then
        match actionSwitchTest line stripped with
        | some true => emitActionSwitch st1 stripped
        | some false => bufferLine st1 stripped
        | none => st1
      else
        emitAction st1 stripped

/-- The initial loop state (source lines 35–39). -/
def initState : AState := ⟨[], none, none, [], false⟩

/-- Run the main loop over all lines. -/
def runLines (lines : List (List Char)) : AState :=
  lines.foldl processLine initState

/-- The trailing flush of source lines 147–152. -/
def finalFlush (st : AState) : List Record :=
  if st.inDialogueMode && !st.dialogueBuffer.isEmpty then
    st.processed ++ [dialogueRecordOf st]
  else st.processed

/-- The classification/assembly pass: `processed_data` as it stands at
source line 152. -/
def assemble (lines : List (List Char)) : List Record :=
  finalFlush (runLines lines)

/-! ### The consolidation pass (source lines 154–195) -/

/-- The consolidator's loop state. -/
structure CState where
  consolidated : List Record
  actionBuffer : List (List Char)
  currentActionScene : Option (List Char)
deriving DecidableEq

/-- The ACTION record flushed from the action buffer. -/
def actionRecordOf (st : CState) : Record :=
  ⟨RType.ACTION, joinSpace st.actionBuffer, st.currentActionScene⟩

/-- One iteration of the consolidation loop (source lines 159–185). -/
def consolidateStep (st : CState) (item : Record) : CState :=
  if item.rtype = RType.ACTION then
    if st.currentActionScene = item.scene then
      { st with actionBuffer := st.actionBuffer ++ [item.text] }
    else
      let st1 :=
        if !st.actionBuffer.isEmpty then
          { st with consolidated := st.consolidated ++ [actionRecordOf st] }
        else st
      { st1 with actionBuffer := [item.text], currentActionScene := item.scene }
  else
    let st1 :=
      if !st.actionBuffer.isEmpty then
        { st with consolidated := st.consolidated ++ [actionRecordOf st],
                  actionBuffer := [], currentActionScene := none }
      else st
    { st1 with consolidated := st1.consolidated ++ [item] }

/-- The trailing action flush of source lines 188–193. -/
def finishCons (st : CState) : List Record :=
  if !st.actionBuffer.isEmpty then st.consolidated ++ [actionRecordOf st]
  else st.consolidated

/-- The paragraph consolidation pass. -/
def consolidate (rs : List Record) : List Record :=
  finishCons (rs.foldl consolidateStep ⟨[], [], none⟩)

/-- The whole core transformation: assembly followed by consolidation
(the value of `processed_data` at source line 195). -/
def pipeline (lines : List (List Char)) : List Record :=
  consolidate (assemble lines)

/-! ### Predicates used by the specification properties -/

/-- `p` occurs as a contiguous segment of `s`. -/
def SubSeg (p s : List Char) : Prop := ∃ l r, s = l ++ p ++ r

/-- The concatenation of all emitted records' text. -/
def allText (rs : List Record) : List Char := (rs.map Record.text).join

/-- The assembler state invariant implicit in the code: whenever the
in-dialogue flag is set the current character is non-null, and whenever
the dialogue buffer is non-empty the flag is set. -/
def AInv (st : AState) : Prop :=
  (st.inDialogueMode = true → st.currentCharacter ≠ none) ∧
  (st.dialogueBuffer ≠ [] → st.inDialogueMode = true)

/-- `x` is represented in the assembler state: as a segment of some
already-emitted record's text, or as an entry of the dialogue buffer. -/
def ReprS (x : List Char) (st : AState) : Prop :=
  (∃ r ∈ st.processed, SubSeg x r.text) ∨ x ∈ st.dialogueBuffer

/-- `x` is represented in the consolidator state: as a segment of some
already-emitted record's text, or as a segment of an entry of the pending
action buffer. -/
def ReprC (x : List Char) (st : CState) : Prop :=
  (∃ r ∈ st.consolidated, SubSeg x r.text) ∨ ∃ b ∈ st.actionBuffer, SubSeg x b

/-- How a record updates the ambient scene: a SCENE record's text becomes
the ambient scene, all other records leave it. -/
def sceneUpd (amb : Option (List Char)) (r : Record) : Option (List Char) :=
  if r.rtype = RType.SCENE then some r.text else amb

/-- The ambient scene after a record sequence. -/
def sceneFold (amb : Option (List Char)) (rs : List Record) : Option (List Char) :=
  rs.foldl sceneUpd amb

/-- Scene attachment, relative to an ambient scene `amb`: every non-SCENE
record's `scene` field equals the text of the most recently preceding
SCENE record (or `amb` if none precedes it). -/
def SceneOK : Option (List Char) → List Record → Prop
  | _, [] => True
  | amb, r :: rs =>
    (r.rtype ≠ RType.SCENE → r.scene = amb) ∧ SceneOK (sceneUpd amb r) rs

/-- The scene-attachment invariant of the assembler state. -/
def SInv (st : AState) : Prop :=
  SceneOK none st.processed ∧ st.currentScene = sceneFold none st.processed

/-- The scene-attachment invariant of the consolidator state, relative to
the ambient scene `amb` of the remaining input. -/
def CSInv (amb : Option (List Char)) (st : CState) : Prop :=
  SceneOK none st.consolidated ∧ sceneFold none st.consolidated = amb ∧
  (st.actionBuffer ≠ [] → st.currentActionScene = amb)

/-- Two adjacent records are acceptable in consolidated output when they
are not both ACTION records with the same scene. -/
def AdjOK (a b : Record) : Prop :=
  a.rtype = RType.ACTION → b.rtype = RType.ACTION → a.scene ≠ b.scene

/-- The consolidator invariant for the no-adjacent-same-scene-ACTION
postcondition. -/
def DInv (st : CState) : Prop :=
  List.Chain' AdjOK st.consolidated ∧
  (st.actionBuffer = [] →
    ∀ a, st.consolidated.getLast? = some a → a.rtype ≠ RType.ACTION) ∧
  (st.actionBuffer ≠ [] →
    ∀ a, st.consolidated.getLast? = some a → a.rtype = RType.ACTION →
      a.scene ≠ st.currentActionScene)

/-- The non-empty-dialogue invariant of the assembler state: every buffer
entry is non-empty and every emitted DIALOGUE record has non-empty text. -/
def NEInv (st : AState) : Prop :=
  (∀ b ∈ st.dialogueBuffer, b ≠ []) ∧
  (∀ r ∈ st.processed, r.rtype = RType.DIALOGUE → r.text ≠ [])

/-! ### Generic list and segment lemmas -/

theorem subseg_refl (p : List Char) : SubSeg p p := ⟨[], [], by simp⟩

theorem subseg_append_left {p s : List Char} (t : List Char) (h : SubSeg p s) :
    SubSeg p (t ++ s) := by
  obtain ⟨l, r, rfl⟩ := h
  exact ⟨t ++ l, r, by simp⟩

theorem subseg_append_right {p s : List Char} (t : List Char) (h : SubSeg p s) :
    SubSeg p (s ++ t) := by
  obtain ⟨l, r, rfl⟩ := h
  exact ⟨l, r ++ t, by simp⟩

theorem subseg_trans {p q s : List Char} (h1 : SubSeg p q) (h2 : SubSeg q s) :
    SubSeg p s := by
  obtain ⟨l1, r1, rfl⟩ := h1
  obtain ⟨l2, r2, rfl⟩ := h2
  exact ⟨l2 ++ l1, r1 ++ r2, by simp⟩

theorem joinSpace_cons₂ (b c : List Char) (bs : List (List Char)) :
    joinSpace (b :: c :: bs) = b ++ ' ' :: joinSpace (c :: bs) := rfl

theorem subseg_joinSpace {b : List Char} {bs : List (List Char)} (h : b ∈ bs) :
    SubSeg b (joinSpace bs) := by
  induction bs with
  | nil => cases h
  | cons hd tl ih =>
    cases tl with
    | nil =>
      have hb : b = hd := by simpa using h
      subst hb
      exact subseg_refl b
    | cons hd2 tl2 =>
      rcases List.mem_cons.mp h with rfl | h2
      · exact ⟨[], ' ' :: joinSpace (hd2 :: tl2), by simp [joinSpace_cons₂]⟩
      · have h3 : SubSeg b (' ' :: joinSpace (hd2 :: tl2)) := by
          simpa using subseg_append_left [' '] (ih h2)
        simpa [joinSpace_cons₂] using subseg_append_left hd h3

theorem subseg_allText {x : List Char} {rs : List Record}
    (h : ∃ r ∈ rs, SubSeg x r.text) : SubSeg x (allText rs) := by
  induction rs with
  | nil => obtain ⟨r, hr, -⟩ := h; cases hr
  | cons hd tl ih =>
    obtain ⟨r, hr, hx⟩ := h
    rcases List.mem_cons.mp hr with rfl | h2
    · simpa [allText] using subseg_append_right (allText tl) hx
    · simpa [allText] using subseg_append_left hd.text (ih ⟨r, h2, hx⟩)

/-- Preservation of a predicate along `List.foldl`. -/
theorem foldl_pres {σ α : Type} {P : σ → Prop} {f : σ → α → σ}
    (h : ∀ s a, P s → P (f s a)) :
    ∀ (l : List α) (s : σ), P s → P (l.foldl f s) := by
  intro l
  induction l with
  | nil => intro s hs; simpa using hs
  | cons a l ih => intro s hs; simpa using ih (f s a) (h s a hs)

/-! ### A case analysis of one loop iteration

Every iteration of the main loop is one of: the blank-line flush, a SCENE
emission, a cue emission, the dialogue-to-action switch, a dialogue
buffer append, an idle ACTION emission, or (for the unreachable `none`
branch of the guarded test) a no-op — each acting on the intermediate
state `st1`, which is the incoming state, flushed first when the line is
a heading candidate. -/

theorem processLine_shape (st : AState) (line : List Char) :
    ((pyStrip line).isEmpty = true ∧ processLine st line = flushReset st) ∨
    (∃ st1, (st1 = st ∨ st1 = flushReset st) ∧ (pyStrip line).isEmpty = false ∧
      (processLine st line = emitScene st1 (pyStrip line) ∨
       processLine st line = emitCue st1 (pyStrip (stripContD (pyStrip line))) ∨
       (st1.inDialogueMode = true ∧
         processLine st line = emitActionSwitch st1 (pyStrip line)) ∨
       (st1.inDialogueMode = true ∧
         processLine st line = bufferLine st1 (pyStrip line)) ∨
       processLine st line = emitAction st1 (pyStrip line) ∨
       (actionSwitchTest line (pyStrip line) = none ∧
         processLine st line = st1))) := by
  by_cases hb : (pyStrip line).isEmpty = true
  · exact Or.inl ⟨hb, by simp [processLine, hb]⟩
  · replace hb : (pyStrip line).isEmpty = false := by simpa using hb
    refine Or.inr ?_
    by_cases hh : headingCand (pyStrip line) = true
    · refine ⟨flushReset st, Or.inr rfl, hb, ?_⟩
      by_cases hd : startsDigit (pyStrip line) = true
      · exact Or.inl (by simp [processLine, hb, hh, hd])
      · replace hd : startsDigit (pyStrip line) = false := by simpa using hd
        by_cases hm : isSceneMarked (pyStrip line) = true
        · exact Or.inl (by simp [processLine, hb, hh, hd, hm])
        · replace hm : isSceneMarked (pyStrip line) = false := by simpa using hm
          by_cases hq : cueQual (pyStrip (stripContD (pyStrip line))) = true
          · exact Or.inr (Or.inl (by simp [processLine, hb, hh, hd, hm, hq]))
          · replace hq : cueQual (pyStrip (stripContD (pyStrip line))) = false := by
              simpa using hq
            by_cases hmo : ((flushReset st).inDialogueMode &&
                truthyStr (flushReset st).currentCharacter) = true
            · have hmo1 : (flushReset st).inDialogueMode = true :=
                ((Bool.and_eq_true _ _).mp hmo).1
              rcases ha : actionSwitchTest line (pyStrip line) with - | b
              · exact Or.inr (Or.inr (Or.inr (Or.inr (Or.inr
                  ⟨rfl, by simp [processLine, hb, hh, hd, hm, hq, hmo, ha]⟩))))
              · cases b
                · exact Or.inr (Or.inr (Or.inr (Or.inl ⟨hmo1,
                    by simp [processLine, hb, hh, hd, hm, hq, hmo, ha]⟩)))
                · exact Or.inr (Or.inr (Or.inl ⟨hmo1,
                    by simp [processLine, hb, hh, hd, hm, hq, hmo, ha]⟩))
            · replace hmo : ((flushReset st).inDialogueMode &&
                  truthyStr (flushReset st).currentCharacter) = false := by simpa using hmo
              exact Or.inr (Or.inr (Or.inr (Or.inr (Or.inl
                (by simp [processLine, hb, hh, hd, hm, hq, hmo])))))
    · replace hh : headingCand (pyStrip line) = false := by simpa using hh
      refine ⟨st, Or.inl rfl, hb, ?_⟩
      by_cases hq : cueQual (pyStrip (stripContD (pyStrip line))) = true
      · exact Or.inr (Or.inl (by simp [processLine, hb, hh, hq]))
      · replace hq : cueQual (pyStrip (stripContD (pyStrip line))) = false := by
          simpa using hq
        by_cases hmo : (st.inDialogueMode && truthyStr st.currentCharacter) = true
        · have hmo1 : st.inDialogueMode = true := ((Bool.and_eq_true _ _).mp hmo).1
          rcases ha : actionSwitchTest line (pyStrip line) with - | b
          · exact Or.inr (Or.inr (Or.inr (Or.inr (Or.inr
              ⟨rfl, by simp [processLine, hb, hh, hq, hmo, ha]⟩))))
          · cases b
            · exact Or.inr (Or.inr (Or.inr (Or.inl ⟨hmo1,
                by simp [processLine, hb, hh, hq, hmo, ha]⟩)))
            · exact Or.inr (Or.inr (Or.inl ⟨hmo1,
                by simp [processLine, hb, hh, hq, hmo, ha]⟩))
        · replace hmo : (st.inDialogueMode && truthyStr st.currentCharacter) = false := by
            simpa using hmo
          exact Or.inr (Or.inr (Or.inr (Or.inr (Or.inl
            (by simp [processLine, hb, hh, hq, hmo])))))

/-! ### The assembler state invariant (implicit in the code)

Whenever the in-dialogue flag is set the current character is non-null,
and whenever the dialogue buffer is non-empty the flag is set. -/

theorem aInv_initState : AInv initState := by
  constructor <;> simp [initState]

theorem aInv_flushReset (st : AState) (h : AInv st) : AInv (flushReset st) := by
  unfold flushReset
  split
  · constructor <;> simp
  · exact h

theorem aInv_emitScene (st : AState) (s : List Char) (h : AInv st) :
    AInv (emitScene st s) := by
  unfold emitScene
  exact ⟨fun hm => h.1 hm, fun hb => h.2 hb⟩

theorem aInv_emitCue (st : AState) (c : List Char) : AInv (emitCue st c) := by
  unfold emitCue flushKeep
  split <;> constructor <;> simp

theorem aInv_emitActionSwitch (st : AState) (s : List Char) :
    AInv (emitActionSwitch st s) := by
  unfold emitActionSwitch
  split
  · constructor <;> simp
  · constructor <;> simp_all [List.isEmpty_iff]

theorem aInv_bufferLine (st : AState) (s : List Char)
    (hm : st.inDialogueMode = true) (h : AInv st) : AInv (bufferLine st s) := by
  unfold bufferLine
  exact ⟨fun _ => h.1 hm, fun _ => hm⟩

theorem aInv_emitAction (st : AState) (s : List Char) (h : AInv st) :
    AInv (emitAction st s) := by
  unfold emitAction
  exact ⟨fun hm => h.1 hm, fun hb => h.2 hb⟩

theorem aInv_step (st : AState) (line : List Char) (h : AInv st) :
    AInv (processLine st line) := by
  rcases processLine_shape st line with ⟨-, he⟩ | ⟨st1, hst1, -, hcase⟩
  · rw [he]; exact aInv_flushReset st h
  · have h1 : AInv st1 := by
      rcases hst1 with rfl | rfl
      · exact h
      · exact aInv_flushReset st h
    rcases hcase with he | he | ⟨hm, he⟩ | ⟨hm, he⟩ | he | ⟨-, he⟩
    · rw [he]; exact aInv_emitScene _ _ h1
    · rw [he]; exact aInv_emitCue _ _
    · rw [he]; exact aInv_emitActionSwitch _ _
    · rw [he]; exact aInv_bufferLine _ _ hm h1
    · rw [he]; exact aInv_emitAction _ _ h1
    · rw [he]; exact h1

theorem aInv_runLines (lines : List (List Char)) : AInv (runLines lines) :=
  foldl_pres aInv_step lines initState aInv_initState

/-! ### No text is lost: representation through the assembly pass -/

theorem actionSwitchTest_ne_none (line stripped : List Char) :
    actionSwitchTest line stripped ≠ none := by
  cases line <;> simp [actionSwitchTest]

theorem reprS_flushReset {x : List Char} (st : AState) (h : ReprS x st) :
    ReprS x (flushReset st) := by
  unfold flushReset
  split
  · rcases h with ⟨r, hr, hx⟩ | hx
    · exact Or.inl ⟨r, by simp [hr], hx⟩
    · exact Or.inl ⟨dialogueRecordOf st, by simp, subseg_joinSpace hx⟩
  · exact h

theorem reprS_flushKeep {x : List Char} (st : AState) (h : ReprS x st) :
    ReprS x (flushKeep st) := by
  unfold flushKeep
  split
  · rcases h with ⟨r, hr, hx⟩ | hx
    · exact Or.inl ⟨r, by simp [hr], hx⟩
    · exact Or.inl ⟨dialogueRecordOf st, by simp, subseg_joinSpace hx⟩
  · exact h

theorem reprS_emitScene {x : List Char} (st : AState) (s : List Char)
    (h : ReprS x st) : ReprS x (emitScene st s) := by
  unfold emitScene
  rcases h with ⟨r, hr, hx⟩ | hx
  · exact Or.inl ⟨r, by simp [hr], hx⟩
  · exact Or.inr hx

theorem reprS_emitCue {x : List Char} (st : AState) (c : List Char)
    (h : ReprS x st) : ReprS x (emitCue st c) := by
  unfold emitCue
  rcases reprS_flushKeep st h with ⟨r, hr, hx⟩ | hx
  · exact Or.inl ⟨r, by simp [hr], hx⟩
  · exact Or.inr hx

theorem reprS_emitActionSwitch {x : List Char} (st : AState) (s : List Char)
    (h : ReprS x st) : ReprS x (emitActionSwitch st s) := by
  unfold emitActionSwitch
  split
  · rcases h with ⟨r, hr, hx⟩ | hx
    · exact Or.inl ⟨r, by simp [hr], hx⟩
    · exact Or.inl ⟨dialogueRecordOf st, by simp, subseg_joinSpace hx⟩
  · rcases h with ⟨r, hr, hx⟩ | hx
    · exact Or.inl ⟨r, by simp [hr], hx⟩
    · exact Or.inr hx

theorem reprS_bufferLine {x : List Char} (st : AState) (s : List Char)
    (h : ReprS x st) : ReprS x (bufferLine st s) := by
  unfold bufferLine
  rcases h with ⟨r, hr, hx⟩ | hx
  · exact Or.inl ⟨r, hr, hx⟩
  · exact Or.inr (by simp [hx])

theorem reprS_emitAction {x : List Char} (st : AState) (s : List Char)
    (h : ReprS x st) : ReprS x (emitAction st s) := by
  unfold emitAction
  rcases h with ⟨r, hr, hx⟩ | hx
  · exact Or.inl ⟨r, by simp [hr], hx⟩
  · exact Or.inr hx

theorem reprS_step (st : AState) (line : List Char) {x : List Char}
    (h : ReprS x st) : ReprS x (processLine st line) := by
  rcases processLine_shape st line with ⟨-, he⟩ | ⟨st1, hst1, -, hcase⟩
  · rw [he]; exact reprS_flushReset st h
  · have h1 : ReprS x st1 := by
      rcases hst1 with rfl | rfl
      · exact h
      · exact reprS_flushReset st h
    rcases hcase with he | he | ⟨-, he⟩ | ⟨-, he⟩ | he | ⟨-, he⟩
    · rw [he]; exact reprS_emitScene _ _ h1
    · rw [he]; exact reprS_emitCue _ _ h1
    · rw [he]; exact reprS_emitActionSwitch _ _ h1
    · rw [he]; exact reprS_bufferLine _ _ h1
    · rw [he]; exact reprS_emitAction _ _ h1
    · rw [he]; exact h1

/-- Processing a non-blank line represents its stripped text — or, when
the line is consumed as a character cue, its `(CONT'D)`-cleaned text — in
the resulting state. -/
theorem reprS_self_emitScene (st : AState) (s : List Char) :
    ReprS s (emitScene st s) :=
  Or.inl ⟨⟨RType.SCENE, s, none⟩, by simp [emitScene], subseg_refl s⟩

theorem reprS_self_emitCue (st : AState) (c : List Char) :
    ReprS c (emitCue st c) :=
  Or.inl ⟨⟨RType.CHARACTER, c, (flushKeep st).currentScene⟩,
    by simp [emitCue], subseg_refl c⟩

theorem reprS_self_emitActionSwitch (st : AState) (s : List Char) :
    ReprS s (emitActionSwitch st s) := by
  unfold emitActionSwitch
  split
  · exact Or.inl ⟨⟨RType.ACTION, s, st.currentScene⟩, by simp, subseg_refl s⟩
  · exact Or.inl ⟨⟨RType.ACTION, s, st.currentScene⟩, by simp, subseg_refl s⟩

theorem reprS_self_bufferLine (st : AState) (s : List Char) :
    ReprS s (bufferLine st s) :=
  Or.inr (by simp [bufferLine])

theorem reprS_self_emitAction (st : AState) (s : List Char) :
    ReprS s (emitAction st s) :=
  Or.inl ⟨⟨RType.ACTION, s, st.currentScene⟩, by simp [emitAction], subseg_refl s⟩

theorem reprS_add (st : AState) (line : List Char)
    (hne : (pyStrip line).isEmpty = false) :
    ReprS (pyStrip line) (processLine st line) ∨
    ReprS (pyStrip (stripContD (pyStrip line))) (processLine st line) := by
  rcases processLine_shape st line with ⟨hb, -⟩ | ⟨st1, -, -, hcase⟩
  · rw [hb] at hne; cases hne
  · rcases hcase with he | he | ⟨-, he⟩ | ⟨-, he⟩ | he | ⟨ha, -⟩
    · exact Or.inl (he ▸ reprS_self_emitScene st1 (pyStrip line))
    · exact Or.inr (he ▸ reprS_self_emitCue st1 _)
    · exact Or.inl (he ▸ reprS_self_emitActionSwitch st1 (pyStrip line))
    · exact Or.inl (he ▸ reprS_self_bufferLine st1 (pyStrip line))
    · exact Or.inl (he ▸ reprS_self_emitAction st1 (pyStrip line))
    · exact absurd ha (actionSwitchTest_ne_none _ _)

theorem reprS_run (lines : List (List Char)) (st : AState) {x : List Char}
    (h : ReprS x st) : ReprS x (lines.foldl processLine st) :=
  foldl_pres (fun s a hs => reprS_step s a hs) lines st h

/-- Every non-blank input line is represented (stripped, or cleaned when
consumed as a cue) in the state after the whole loop. -/
theorem reprS_lines (lines : List (List Char)) :
    ∀ (st : AState) (line : List Char), line ∈ lines →
      (pyStrip line).isEmpty = false →
      (ReprS (pyStrip line) (lines.foldl processLine st) ∨
       ReprS (pyStrip (stripContD (pyStrip line))) (lines.foldl processLine st)) := by
  induction lines with
  | nil => intro st line h; cases h
  | cons hd tl ih =>
    intro st line hmem hne
    rcases List.mem_cons.mp hmem with rfl | h2
    · rcases reprS_add st line hne with h | h
      · exact Or.inl (by simpa using reprS_run tl (processLine st line) h)
      · exact Or.inr (by simpa using reprS_run tl (processLine st line) h)
    · simpa using ih (processLine st hd) line h2 hne

/-- The trailing flush realizes every represented string as a segment of
some emitted record (the state invariant guarantees a non-empty buffer is
flushed). -/
theorem repr_finalFlush (st : AState) (hinv : AInv st) {x : List Char}
    (h : ReprS x st) : ∃ r ∈ finalFlush st, SubSeg x r.text := by
  rcases h with ⟨r, hr, hx⟩ | hx
  · refine ⟨r, ?_, hx⟩
    unfold finalFlush
    split
    · simp [hr]
    · exact hr
  · have hb : st.dialogueBuffer ≠ [] := List.ne_nil_of_mem hx
    have hm : st.inDialogueMode = true := hinv.2 hb
    have hbe : st.dialogueBuffer.isEmpty = false := by
      cases h' : st.dialogueBuffer with
      | nil => exact absurd h' hb
      | cons a l => rfl
    unfold finalFlush
    rw [if_pos (by simp [hm, hbe])]
    exact ⟨dialogueRecordOf st, by simp, subseg_joinSpace hx⟩

/-! ### No text is lost: representation through the consolidation pass -/

theorem reprC_step {x : List Char} (st : CState) (item : Record)
    (h : ReprC x st) : ReprC x (consolidateStep st item) := by
  unfold consolidateStep
  split
  · split
    · rcases h with ⟨r, hr, hx⟩ | ⟨b, hb, hx⟩
      · exact Or.inl ⟨r, hr, hx⟩
      · exact Or.inr ⟨b, by simp [hb], hx⟩
    · split
      · rcases h with ⟨r, hr, hx⟩ | ⟨b, hb, hx⟩
        · exact Or.inl ⟨r, by simp [hr], hx⟩
        · exact Or.inl ⟨actionRecordOf st, by simp,
            subseg_trans hx (subseg_joinSpace hb)⟩
      · rcases h with ⟨r, hr, hx⟩ | ⟨b, hb, hx⟩
        · exact Or.inl ⟨r, hr, hx⟩
        · rename_i hemp
          have h0 : st.actionBuffer = [] := by
            cases h' : st.actionBuffer with
            | nil => rfl
            | cons a l => rw [h'] at hemp; simp at hemp
          rw [h0] at hb
          cases hb
  · split
    · rcases h with ⟨r, hr, hx⟩ | ⟨b, hb, hx⟩
      · exact Or.inl ⟨r, by simp [hr], hx⟩
      · exact Or.inl ⟨actionRecordOf st, by simp,
          subseg_trans hx (subseg_joinSpace hb)⟩
    · rcases h with ⟨r, hr, hx⟩ | ⟨b, hb, hx⟩
      · exact Or.inl ⟨r, by simp [hr], hx⟩
      · rename_i hemp
        have h0 : st.actionBuffer = [] := by
          cases h' : st.actionBuffer with
          | nil => rfl
          | cons a l => rw [h'] at hemp; simp at hemp
        rw [h0] at hb
        cases hb

theorem reprC_add {x : List Char} (st : CState) (item : Record)
    (h : SubSeg x item.text) : ReprC x (consolidateStep st item) := by
  unfold consolidateStep
  split
  · split
    · exact Or.inr ⟨item.text, by simp, h⟩
    · exact Or.inr ⟨item.text, by simp, h⟩
  · exact Or.inl ⟨item, by simp, h⟩

theorem reprC_run (rs : List Record) (st : CState) {x : List Char}
    (h : ReprC x st) : ReprC x (rs.foldl consolidateStep st) :=
  foldl_pres (fun s a hs => reprC_step s a hs) rs st h

theorem reprC_in (rs : List Record) :
    ∀ (st : CState) (r : Record), r ∈ rs → ∀ {x : List Char}, SubSeg x r.text →
      ReprC x (rs.foldl consolidateStep st) := by
  induction rs with
  | nil => intro st r h; cases h
  | cons hd tl ih =>
    intro st r hmem x hx
    rcases List.mem_cons.mp hmem with rfl | h2
    · simpa using reprC_run tl (consolidateStep st r) (reprC_add st r hx)
    · simpa using ih (consolidateStep st hd) r h2 hx

theorem reprC_finish {x : List Char} (st : CState) (h : ReprC x st) :
    ∃ r ∈ finishCons st, SubSeg x r.text := by
  unfold finishCons
  rcases h with ⟨r, hr, hx⟩ | ⟨b, hb, hx⟩
  · refine ⟨r, ?_, hx⟩
    split
    · simp [hr]
    · exact hr
  · have hbe : st.actionBuffer.isEmpty = false := by
      cases h' : st.actionBuffer with
      | nil => rw [h'] at hb; cases hb
      | cons a l => rfl
    rw [if_pos (by simp [hbe])]
    exact ⟨actionRecordOf st, by simp, subseg_trans hx (subseg_joinSpace hb)⟩

/-- Consolidation loses no text: anything occurring in some input record's
text occurs in some output record's text. -/
theorem consolidate_repr {x : List Char} (rs : List Record)
    (h : ∃ r ∈ rs, SubSeg x r.text) :
    ∃ r ∈ consolidate rs, SubSeg x r.text := by
  obtain ⟨r, hr, hx⟩ := h
  exact reprC_finish _ (reprC_in rs _ r hr hx)

/-! ### Scene attachment -/

theorem ne_nil_of_not_isEmpty {α : Type} {l : List α}
    (h : (!l.isEmpty) = true) : l ≠ [] := by
  cases l
  · simp at h
  · simp

theorem sceneOK_cons (amb : Option (List Char)) (r : Record) (rs : List Record) :
    SceneOK amb (r :: rs) ↔
      ((r.rtype ≠ RType.SCENE → r.scene = amb) ∧ SceneOK (sceneUpd amb r) rs) :=
  Iff.rfl

theorem sceneFold_append (amb : Option (List Char)) (l : List Record) (r : Record) :
    sceneFold amb (l ++ [r]) = sceneUpd (sceneFold amb l) r := by
  simp [sceneFold, List.foldl_append]

theorem sceneUpd_of_ne (amb : Option (List Char)) {r : Record}
    (h : r.rtype ≠ RType.SCENE) : sceneUpd amb r = amb := by
  simp [sceneUpd, h]

theorem sceneOK_append (amb : Option (List Char)) (l : List Record) (r : Record)
    (h : SceneOK amb l) (hr : r.rtype ≠ RType.SCENE → r.scene = sceneFold amb l) :
    SceneOK amb (l ++ [r]) := by
  induction l generalizing amb with
  | nil => exact ⟨fun hne => by simpa [sceneFold] using hr hne, trivial⟩
  | cons a l ih =>
    rw [List.cons_append, sceneOK_cons]
    rw [sceneOK_cons] at h
    refine ⟨h.1, ih (sceneUpd amb a) h.2 ?_⟩
    intro hne
    have := hr hne
    simpa [sceneFold] using this

theorem sInv_initState : SInv initState := ⟨trivial, rfl⟩

theorem sInv_flushReset (st : AState) (h : SInv st) : SInv (flushReset st) := by
  unfold flushReset
  split
  · refine ⟨sceneOK_append none _ _ h.1 (fun _ => h.2), ?_⟩
    show st.currentScene = sceneFold none (st.processed ++ [dialogueRecordOf st])
    rw [sceneFold_append, sceneUpd_of_ne _ (by simp [dialogueRecordOf])]
    exact h.2
  · exact h

theorem sInv_flushKeep (st : AState) (h : SInv st) : SInv (flushKeep st) := by
  unfold flushKeep
  split
  · refine ⟨sceneOK_append none _ _ h.1 (fun _ => h.2), ?_⟩
    show st.currentScene = sceneFold none (st.processed ++ [dialogueRecordOf st])
    rw [sceneFold_append, sceneUpd_of_ne _ (by simp [dialogueRecordOf])]
    exact h.2
  · exact h

theorem sInv_emitScene (st : AState) (s : List Char) (h : SInv st) :
    SInv (emitScene st s) := by
  unfold emitScene
  refine ⟨sceneOK_append none _ _ h.1 (fun hne => absurd rfl hne), ?_⟩
  show some s = sceneFold none (st.processed ++ [⟨RType.SCENE, s, none⟩])
  rw [sceneFold_append]
  simp [sceneUpd]

theorem sInv_emitCue (st : AState) (c : List Char) (h : SInv st) :
    SInv (emitCue st c) := by
  have h2 := sInv_flushKeep st h
  unfold emitCue
  refine ⟨sceneOK_append none _ _ h2.1 (fun _ => h2.2), ?_⟩
  show (flushKeep st).currentScene = sceneFold none ((flushKeep st).processed ++ _)
  rw [sceneFold_append, sceneUpd_of_ne _ (by simp)]
  exact h2.2

theorem sInv_emitActionSwitch (st : AState) (s : List Char) (h : SInv st) :
    SInv (emitActionSwitch st s) := by
  unfold emitActionSwitch
  split
  · have h2 : SInv { st with processed := st.processed ++ [dialogueRecordOf st], dialogueBuffer := [] } := by
      refine ⟨sceneOK_append none _ _ h.1 (fun _ => h.2), ?_⟩
      show st.currentScene = sceneFold none (st.processed ++ [dialogueRecordOf st])
      rw [sceneFold_append, sceneUpd_of_ne _ (by simp [dialogueRecordOf])]
      exact h.2
    refine ⟨sceneOK_append none _ _ h2.1 (fun _ => h2.2), ?_⟩
    show st.currentScene = _
    rw [sceneFold_append, sceneUpd_of_ne _ (by simp)]
    exact h2.2
  · refine ⟨sceneOK_append none _ _ h.1 (fun _ => h.2), ?_⟩
    show st.currentScene = _
    rw [sceneFold_append, sceneUpd_of_ne _ (by simp)]
    exact h.2

theorem sInv_bufferLine (st : AState) (s : List Char) (h : SInv st) :
    SInv (bufferLine st s) := h

theorem sInv_emitAction (st : AState) (s : List Char) (h : SInv st) :
    SInv (emitAction st s) := by
  unfold emitAction
  refine ⟨sceneOK_append none _ _ h.1 (fun _ => h.2), ?_⟩
  show st.currentScene = _
  rw [sceneFold_append, sceneUpd_of_ne _ (by simp)]
  exact h.2

theorem sInv_step (st : AState) (line : List Char) (h : SInv st) :
    SInv (processLine st line) := by
  rcases processLine_shape st line with ⟨-, he⟩ | ⟨st1, hst1, -, hcase⟩
  · rw [he]; exact sInv_flushReset st h
  · have h1 : SInv st1 := by
      rcases hst1 with rfl | rfl
      · exact h
      · exact sInv_flushReset st h
    rcases hcase with he | he | ⟨-, he⟩ | ⟨-, he⟩ | he | ⟨-, he⟩
    · rw [he]; exact sInv_emitScene _ _ h1
    · rw [he]; exact sInv_emitCue _ _ h1
    · rw [he]; exact sInv_emitActionSwitch _ _ h1
    · rw [he]; exact sInv_bufferLine _ _ h1
    · rw [he]; exact sInv_emitAction _ _ h1
    · rw [he]; exact h1

theorem sInv_runLines (lines : List (List Char)) : SInv (runLines lines) :=
  foldl_pres sInv_step lines initState sInv_initState

/-- Scene attachment holds for the assembled record sequence. -/
theorem sceneOK_assemble (lines : List (List Char)) :
    SceneOK none (assemble lines) := by
  have h := sInv_runLines lines
  unfold assemble finalFlush
  split
  · exact sceneOK_append none _ _ h.1 (fun _ => h.2)
  · exact h.1

theorem csInv_step (amb : Option (List Char)) (st : CState) (item : Record)
    (hitem : item.rtype ≠ RType.SCENE → item.scene = amb) (h : CSInv amb st) :
    CSInv (sceneUpd amb item) (consolidateStep st item) := by
  unfold consolidateStep
  split
  · rename_i hA
    have hupd : sceneUpd amb item = amb := by simp [sceneUpd, hA]
    have hscene : item.scene = amb := hitem (by rw [hA]; simp)
    rw [hupd]
    split
    · rename_i hsc
      exact ⟨h.1, h.2.1, fun _ => by rw [hsc, hscene]⟩
    · rename_i hsc
      split
      · rename_i hbuf
        exact absurd (by rw [h.2.2 (ne_nil_of_not_isEmpty hbuf), hscene])
          hsc
      · exact ⟨h.1, h.2.1, fun _ => hscene⟩
  · rename_i hA
    split
    · rename_i hbuf
      have hcas : st.currentActionScene = amb := h.2.2 (ne_nil_of_not_isEmpty hbuf)
      have hOK1 : SceneOK none (st.consolidated ++ [actionRecordOf st]) :=
        sceneOK_append none _ _ h.1
          (fun _ => by show st.currentActionScene = _; rw [hcas, h.2.1])
      have hfold1 : sceneFold none (st.consolidated ++ [actionRecordOf st]) = amb := by
        rw [sceneFold_append, sceneUpd_of_ne _ (by simp [actionRecordOf])]
        exact h.2.1
      refine ⟨?_, ?_, ?_⟩
      · exact sceneOK_append none _ _ hOK1 (fun hne => by rw [hitem hne, hfold1])
      · rw [sceneFold_append]
        show sceneUpd (sceneFold none (st.consolidated ++ [actionRecordOf st])) item = _
        rw [hfold1]
      · intro hb
        simp at hb
    · rename_i hbuf
      have hbe : st.actionBuffer = [] := by
        cases h' : st.actionBuffer with
        | nil => rfl
        | cons a l => rw [h'] at hbuf; simp at hbuf
      refine ⟨?_, ?_, ?_⟩
      · exact sceneOK_append none _ _ h.1 (fun hne => by rw [hitem hne, h.2.1])
      · rw [sceneFold_append]
        show sceneUpd (sceneFold none st.consolidated) item = _
        rw [h.2.1]
      · intro hb
        rw [hbe] at hb
        exact absurd rfl hb

theorem csInv_run (rs : List Record) :
    ∀ (amb : Option (List Char)) (st : CState), SceneOK amb rs → CSInv amb st →
      SceneOK none (finishCons (rs.foldl consolidateStep st)) := by
  induction rs with
  | nil =>
    intro amb st _ h
    simp only [List.foldl_nil]
    unfold finishCons
    split
    · rename_i hbuf
      exact sceneOK_append none _ _ h.1
        (fun _ => by
          show st.currentActionScene = _
          rw [h.2.2 (ne_nil_of_not_isEmpty hbuf), h.2.1])
    · exact h.1
  | cons item rest ih =>
    intro amb st hOK h
    rw [sceneOK_cons] at hOK
    simpa using ih (sceneUpd amb item) (consolidateStep st item) hOK.2
      (csInv_step amb st item hOK.1 h)

/-- Scene attachment is preserved by the consolidation pass. -/
theorem sceneOK_consolidate (rs : List Record) (h : SceneOK none rs) :
    SceneOK none (consolidate rs) :=
  csInv_run rs none ⟨[], [], none⟩ h ⟨trivial, rfl, fun hb => absurd rfl hb⟩

/-! ### No adjacent same-scene ACTION records after consolidation -/

theorem noAdj_append_one {C : List Record} {r : Record}
    (h : List.Chain' AdjOK C) (hlast : ∀ a, C.getLast? = some a → AdjOK a r) :
    List.Chain' AdjOK (C ++ [r]) := by
  rw [List.chain'_append]
  refine ⟨h, List.chain'_singleton r, fun x hx y hy => ?_⟩
  have hy' : r = y := by simpa using hy
  exact hy' ▸ hlast x (by simpa using hx)

theorem actionRecordOf_rtype (st : CState) :
    (actionRecordOf st).rtype = RType.ACTION := rfl

theorem dInv_init : DInv ⟨[], [], none⟩ :=
  ⟨List.chain'_nil, fun _ a ha => by simp at ha, fun hb => absurd rfl hb⟩

theorem dInv_step (st : CState) (item : Record) (h : DInv st) :
    DInv (consolidateStep st item) := by
  unfold consolidateStep
  split
  · rename_i hA
    split
    · rename_i hsc
      refine ⟨h.1, ?_, ?_⟩
      · intro hbe; simp at hbe
      · intro _ a ha hact
        by_cases hb : st.actionBuffer = []
        · exact absurd hact (h.2.1 hb a ha)
        · exact h.2.2 hb a ha hact
    · rename_i hsc
      split
      · rename_i hbuf
        have hne := ne_nil_of_not_isEmpty hbuf
        have hchain : List.Chain' AdjOK (st.consolidated ++ [actionRecordOf st]) :=
          noAdj_append_one h.1 (fun a ha hact _ => h.2.2 hne a ha hact)
        refine ⟨hchain, ?_, ?_⟩
        · intro hbe; simp at hbe
        · intro _ a ha hact
          rw [List.getLast?_concat] at ha
          have ha' : a = actionRecordOf st := by
            exact (Option.some.inj ha).symm
          subst ha'
          show st.currentActionScene ≠ item.scene
          exact hsc
      · rename_i hbuf
        refine ⟨h.1, ?_, ?_⟩
        · intro hbe; simp at hbe
        · intro _ a ha hact
          have hbe : st.actionBuffer = [] := by
            cases h' : st.actionBuffer with
            | nil => rfl
            | cons x l => rw [h'] at hbuf; simp at hbuf
          exact absurd hact (h.2.1 hbe a ha)
  · rename_i hA
    split
    · rename_i hbuf
      have hne := ne_nil_of_not_isEmpty hbuf
      have hchain1 : List.Chain' AdjOK (st.consolidated ++ [actionRecordOf st]) :=
        noAdj_append_one h.1 (fun a ha hact _ => h.2.2 hne a ha hact)
      have hchain2 : List.Chain' AdjOK
          ((st.consolidated ++ [actionRecordOf st]) ++ [item]) :=
        noAdj_append_one hchain1 (fun a ha _ hact2 => absurd hact2 hA)
      refine ⟨hchain2, ?_, fun hb => absurd rfl hb⟩
      · intro _ a ha
        rw [List.getLast?_concat] at ha
        have ha' : a = item := (Option.some.inj ha).symm
        subst ha'
        exact hA
    · rename_i hbuf
      have hchain : List.Chain' AdjOK (st.consolidated ++ [item]) :=
        noAdj_append_one h.1 (fun a ha _ hact2 => absurd hact2 hA)
      have hbe : st.actionBuffer = [] := by
        cases h' : st.actionBuffer with
        | nil => rfl
        | cons x l => rw [h'] at hbuf; simp at hbuf
      refine ⟨hchain, ?_, ?_⟩
      · intro _ a ha
        rw [List.getLast?_concat] at ha
        have ha' : a = item := (Option.some.inj ha).symm
        subst ha'
        exact hA
      · intro hb
        exact (hb hbe).elim

theorem dInv_finish (st : CState) (h : DInv st) :
    List.Chain' AdjOK (finishCons st) := by
  unfold finishCons
  split
  · rename_i hbuf
    exact noAdj_append_one h.1
      (fun a ha hact _ => h.2.2 (ne_nil_of_not_isEmpty hbuf) a ha hact)
  · exact h.1

/-- The consolidated output never contains two adjacent ACTION records
with the same scene. -/
theorem noAdj_consolidate (rs : List Record) :
    List.Chain' AdjOK (consolidate rs) :=
  dInv_finish _ (foldl_pres dInv_step rs ⟨[], [], none⟩ dInv_init)

/-! ### Consolidation is the identity on already-consolidated sequences -/

theorem actionRec_eta {r : Record} (h : r.rtype = RType.ACTION) :
    r = ⟨RType.ACTION, r.text, r.scene⟩ := by
  cases r with
  | mk t x sc =>
    have : t = RType.ACTION := h
    subst this
    rfl

theorem consRun_id (l : List Record) :
    (∀ C, List.Chain' AdjOK l →
      finishCons (l.foldl consolidateStep ⟨C, [], none⟩) = C ++ l) ∧
    (∀ C t σ, List.Chain' AdjOK (⟨RType.ACTION, t, σ⟩ :: l) →
      finishCons (l.foldl consolidateStep ⟨C, [t], σ⟩) =
        C ++ ⟨RType.ACTION, t, σ⟩ :: l) := by
  induction l with
  | nil =>
    constructor
    · intro C _
      simp [finishCons]
    · intro C t σ _
      simp [finishCons, actionRecordOf, joinSpace]
  | cons r rest ih =>
    constructor
    · intro C hch
      rw [List.foldl_cons]
      by_cases hA : r.rtype = RType.ACTION
      · have hstep : consolidateStep ⟨C, [], none⟩ r = ⟨C, [r.text], r.scene⟩ := by
          unfold consolidateStep
          rw [if_pos hA]
          split
          · rename_i hsc
            show (⟨C, [] ++ [r.text], none⟩ : CState) = _
            rw [show (none : Option (List Char)) = r.scene from hsc]
            simp
          · simp
        rw [hstep]
        have h2 := ih.2 C r.text r.scene (by rw [← actionRec_eta hA]; exact hch)
        rw [h2, ← actionRec_eta hA]
      · have hstep : consolidateStep ⟨C, [], none⟩ r = ⟨C ++ [r], [], none⟩ := by
          unfold consolidateStep
          rw [if_neg hA]
          simp
        rw [hstep]
        have h2 := ih.1 (C ++ [r]) hch.tail
        rw [h2]
        simp
    · intro C t σ hch
      rw [List.foldl_cons]
      have hpair := List.chain'_cons.mp hch
      by_cases hA : r.rtype = RType.ACTION
      · have hne : ¬(σ = r.scene) := by
          have := hpair.1 rfl hA
          simpa using this
        have hstep : consolidateStep ⟨C, [t], σ⟩ r =
            ⟨C ++ [⟨RType.ACTION, t, σ⟩], [r.text], r.scene⟩ := by
          unfold consolidateStep
          rw [if_pos hA, if_neg hne]
          simp [actionRecordOf, joinSpace]
        rw [hstep]
        have h2 := ih.2 (C ++ [⟨RType.ACTION, t, σ⟩]) r.text r.scene
          (by rw [← actionRec_eta hA]; exact hpair.2)
        rw [h2, ← actionRec_eta hA]
        simp
      · have hstep : consolidateStep ⟨C, [t], σ⟩ r =
            ⟨(C ++ [⟨RType.ACTION, t, σ⟩]) ++ [r], [], none⟩ := by
          unfold consolidateStep
          rw [if_neg hA]
          simp [actionRecordOf, joinSpace]
        rw [hstep]
        have h2 := ih.1 ((C ++ [⟨RType.ACTION, t, σ⟩]) ++ [r]) hpair.2.tail
        rw [h2]
        simp

/-- Consolidation is the identity on sequences without adjacent
same-scene ACTION records. -/
theorem consolidate_id_of_noAdj (l : List Record)
    (h : List.Chain' AdjOK l) : consolidate l = l := by
  have h2 := (consRun_id l).1 [] h
  simpa [consolidate] using h2

/-! ### Non-empty dialogue -/

theorem ne_nil_of_isEmpty_false {α : Type} {l : List α}
    (h : l.isEmpty = false) : l ≠ [] := by
  cases l
  · simp at h
  · simp

theorem joinSpace_ne_nil {bs : List (List Char)} (hne : bs ≠ [])
    (h : ∀ b ∈ bs, b ≠ []) : joinSpace bs ≠ [] := by
  cases bs with
  | nil => exact absurd rfl hne
  | cons b tl =>
    cases tl with
    | nil => simpa [joinSpace] using h b (by simp)
    | cons c tl2 => simp [joinSpace_cons₂]

theorem neInv_initState : NEInv initState := by
  constructor <;> simp [initState]

theorem neInv_flushReset (st : AState) (h : NEInv st) : NEInv (flushReset st) := by
  unfold flushReset
  split
  · rename_i hc
    have hbne : st.dialogueBuffer ≠ [] :=
      ne_nil_of_not_isEmpty ((Bool.and_eq_true _ _).mp hc).2
    constructor
    · intro b hb; simp at hb
    · intro r hr hd
      rcases List.mem_append.mp hr with h1 | h2
      · exact h.2 r h1 hd
      · have : r = dialogueRecordOf st := by simpa using h2
        subst this
        exact joinSpace_ne_nil hbne h.1
  · exact h

theorem neInv_flushKeep (st : AState) (h : NEInv st) : NEInv (flushKeep st) := by
  unfold flushKeep
  split
  · rename_i hc
    have hbne : st.dialogueBuffer ≠ [] :=
      ne_nil_of_not_isEmpty ((Bool.and_eq_true _ _).mp hc).2
    constructor
    · intro b hb; simp at hb
    · intro r hr hd
      rcases List.mem_append.mp hr with h1 | h2
      · exact h.2 r h1 hd
      · have : r = dialogueRecordOf st := by simpa using h2
        subst this
        exact joinSpace_ne_nil hbne h.1
  · exact h

theorem neInv_emitScene (st : AState) (s : List Char) (h : NEInv st) :
    NEInv (emitScene st s) := by
  unfold emitScene
  refine ⟨h.1, ?_⟩
  intro r hr hd
  rcases List.mem_append.mp hr with h1 | h2
  · exact h.2 r h1 hd
  · have : r = ⟨RType.SCENE, s, none⟩ := by simpa using h2
    subst this
    cases hd

theorem neInv_emitCue (st : AState) (c : List Char) (h : NEInv st) :
    NEInv (emitCue st c) := by
  have h2 := neInv_flushKeep st h
  unfold emitCue
  refine ⟨h2.1, ?_⟩
  intro r hr hd
  rcases List.mem_append.mp hr with h1 | h3
  · exact h2.2 r h1 hd
  · have : r = ⟨RType.CHARACTER, c, (flushKeep st).currentScene⟩ := by simpa using h3
    subst this
    cases hd

theorem neInv_emitActionSwitch (st : AState) (s : List Char) (h : NEInv st) :
    NEInv (emitActionSwitch st s) := by
  unfold emitActionSwitch
  split
  · rename_i hc
    have hbne : st.dialogueBuffer ≠ [] := ne_nil_of_not_isEmpty hc
    have h2 : NEInv { st with processed := st.processed ++ [dialogueRecordOf st], dialogueBuffer := [] } := by
      constructor
      · intro b hb; simp at hb
      · intro r hr hd
        rcases List.mem_append.mp hr with h1 | h3
        · exact h.2 r h1 hd
        · have : r = dialogueRecordOf st := by simpa using h3
          subst this
          exact joinSpace_ne_nil hbne h.1
    refine ⟨h2.1, ?_⟩
    intro r hr hd
    rcases List.mem_append.mp hr with h1 | h3
    · exact h2.2 r h1 hd
    · have : r = ⟨RType.ACTION, s, st.currentScene⟩ := by simpa using h3
      subst this
      cases hd
  · refine ⟨h.1, ?_⟩
    intro r hr hd
    rcases List.mem_append.mp hr with h1 | h3
    · exact h.2 r h1 hd
    · have : r = ⟨RType.ACTION, s, st.currentScene⟩ := by simpa using h3
      subst this
      cases hd

theorem neInv_bufferLine (st : AState) (s : List Char) (hs : s ≠ [])
    (h : NEInv st) : NEInv (bufferLine st s) := by
  unfold bufferLine
  refine ⟨?_, h.2⟩
  intro b hb
  rcases List.mem_append.mp hb with h1 | h2
  · exact h.1 b h1
  · have : b = s := by simpa using h2
    subst this
    exact hs

theorem neInv_emitAction (st : AState) (s : List Char) (h : NEInv st) :
    NEInv (emitAction st s) := by
  unfold emitAction
  refine ⟨h.1, ?_⟩
  intro r hr hd
  rcases List.mem_append.mp hr with h1 | h2
  · exact h.2 r h1 hd
  · have : r = ⟨RType.ACTION, s, st.currentScene⟩ := by simpa using h2
    subst this
    cases hd

theorem neInv_step (st : AState) (line : List Char) (h : NEInv st) :
    NEInv (processLine st line) := by
  rcases processLine_shape st line with ⟨-, he⟩ | ⟨st1, hst1, hne, hcase⟩
  · rw [he]; exact neInv_flushReset st h
  · have h1 : NEInv st1 := by
      rcases hst1 with rfl | rfl
      · exact h
      · exact neInv_flushReset st h
    rcases hcase with he | he | ⟨-, he⟩ | ⟨-, he⟩ | he | ⟨-, he⟩
    · rw [he]; exact neInv_emitScene _ _ h1
    · rw [he]; exact neInv_emitCue _ _ h1
    · rw [he]; exact neInv_emitActionSwitch _ _ h1
    · rw [he]; exact neInv_bufferLine _ _ (ne_nil_of_isEmpty_false hne) h1
    · rw [he]; exact neInv_emitAction _ _ h1
    · rw [he]; exact h1

theorem neInv_runLines (lines : List (List Char)) : NEInv (runLines lines) :=
  foldl_pres neInv_step lines initState neInv_initState

/-- No DIALOGUE record in the assembled output has empty text. -/
theorem assemble_dialogue_ne_nil (lines : List (List Char)) :
    ∀ r ∈ assemble lines, r.rtype = RType.DIALOGUE → r.text ≠ [] := by
  have h := neInv_runLines lines
  have hinv := aInv_runLines lines
  intro r hr hd
  unfold assemble finalFlush at hr
  split at hr
  · rename_i hc
    rcases List.mem_append.mp hr with h1 | h2
    · exact h.2 r h1 hd
    · have hbne : (runLines lines).dialogueBuffer ≠ [] :=
        ne_nil_of_not_isEmpty ((Bool.and_eq_true _ _).mp hc).2
      have : r = dialogueRecordOf (runLines lines) := by simpa using h2
      subst this
      exact joinSpace_ne_nil hbne h.1
  · exact h.2 r hr hd

/-! ### Non-ACTION records pass through consolidation unchanged -/

theorem consolidateStep_consolidated_sub (st : CState) (item r' : Record)
    (h : r' ∈ (consolidateStep st item).consolidated) :
    r' ∈ st.consolidated ∨ r' = actionRecordOf st ∨ r' = item := by
  simp only [consolidateStep] at h
  split at h
  · split at h
    · exact Or.inl h
    · split at h
      · rcases List.mem_append.mp h with h1 | h2
        · exact Or.inl h1
        · exact Or.inr (Or.inl (by simpa using h2))
      · exact Or.inl h
  · split at h
    · rcases List.mem_append.mp h with h1 | h2
      · rcases List.mem_append.mp h1 with h3 | h4
        · exact Or.inl h3
        · exact Or.inr (Or.inl (by simpa using h4))
      · exact Or.inr (Or.inr (by simpa using h2))
    · rcases List.mem_append.mp h with h1 | h2
      · exact Or.inl h1
      · exact Or.inr (Or.inr (by simpa using h2))

theorem cons_nonaction_mem (rs : List Record) :
    ∀ (st : CState) (r' : Record),
      r' ∈ finishCons (rs.foldl consolidateStep st) →
      r'.rtype ≠ RType.ACTION → r' ∈ st.consolidated ∨ r' ∈ rs := by
  induction rs with
  | nil =>
    intro st r' hmem hna
    simp only [List.foldl_nil] at hmem
    unfold finishCons at hmem
    split at hmem
    · rcases List.mem_append.mp hmem with h1 | h2
      · exact Or.inl h1
      · have : r' = actionRecordOf st := by simpa using h2
        subst this
        exact absurd rfl hna
    · exact Or.inl hmem
  | cons item rest ih =>
    intro st r' hmem hna
    rw [List.foldl_cons] at hmem
    rcases ih (consolidateStep st item) r' hmem hna with h1 | h2
    · rcases consolidateStep_consolidated_sub st item r' h1 with h3 | h4 | h5
      · exact Or.inl h3
      · rw [h4] at hna
        exact absurd rfl hna
      · exact Or.inr (by rw [h5]; exact List.mem_cons_self _ _)
    · exact Or.inr (List.mem_cons_of_mem _ h2)

/-- Every non-ACTION record of the consolidated output is a record of the
input sequence. -/
theorem consolidate_nonaction_mem (rs : List Record) (r' : Record)
    (h : r' ∈ consolidate rs) (hna : r'.rtype ≠ RType.ACTION) : r' ∈ rs := by
  rcases cons_nonaction_mem rs ⟨[], [], none⟩ r' h hna with h1 | h2
  · cases h1
  · exact h2

/-! ### Characterizations used by the corrected claims -/

/-- On a line whose stripped text is empty, the loop iteration is exactly
the conditional flush: when the in-dialogue flag is set and the buffer is
non-empty, the buffered Dialogue record is emitted and buffer, flag and
character are cleared; in every other case (including a blank line right
after a cue, where the flag is set but the buffer is empty) the state is
left completely unchanged, and no record is emitted for the blank line. -/
theorem processLine_blank (st : AState) (line : List Char)
    (h : pyStrip line = []) :
    processLine st line =
      if st.inDialogueMode = true ∧ st.dialogueBuffer ≠ [] then
        { st with processed := st.processed ++ [dialogueRecordOf st],
                  dialogueBuffer := [], inDialogueMode := false,
                  currentCharacter := none }
      else st := by
  have hb : (pyStrip line).isEmpty = true := by rw [h]; rfl
  have h0 : processLine st line = flushReset st := by simp [processLine, hb]
  rw [h0]
  unfold flushReset
  by_cases hc : st.inDialogueMode = true ∧ st.dialogueBuffer ≠ []
  · have hcb : (st.inDialogueMode && !st.dialogueBuffer.isEmpty) = true := by
      rw [hc.1]
      cases h' : st.dialogueBuffer with
      | nil => exact absurd h' hc.2
      | cons a l => rfl
    rw [if_pos hcb, if_pos hc]
  · have hcb : ¬((st.inDialogueMode && !st.dialogueBuffer.isEmpty) = true) := by
      intro hcc
      have h2 := (Bool.and_eq_true _ _).mp hcc
      exact hc ⟨h2.1, ne_nil_of_not_isEmpty h2.2⟩
    rw [if_neg hcb, if_neg hc]

theorem pyIsUpper_nil : pyIsUpper [] = false := rfl

theorem isEmpty_false_of_headingCand {s : List Char}
    (h : headingCand s = true) : s.isEmpty = false := by
  cases h' : s with
  | nil =>
    rw [h'] at h
    exact absurd h (by rw [headingCand, pyIsUpper_nil]; simp)
  | cons a l => rfl

/-- On a heading-candidate line (upper case, longer than 5) that matches
neither heading sub-rule and fails cue qualification, received in
dialogue mode with an active cue and not matching the action heuristic:
if the dialogue buffer is non-empty it is flushed at the
heading-candidate stage, dialogue mode ends, and the line is emitted as
an ACTION record; only when the buffer is empty does the line survive as
a dialogue continuation appended to the buffer. -/
theorem processLine_headingCand_fallthrough (st : AState) (line : List Char)
    (hh : headingCand (pyStrip line) = true)
    (hd : startsDigit (pyStrip line) = false)
    (hm : isSceneMarked (pyStrip line) = false)
    (hq : cueQual (pyStrip (stripContD (pyStrip line))) = false)
    (hmode : st.inDialogueMode = true)
    (hchar : truthyStr st.currentCharacter = true)
    (hsw : actionSwitchTest line (pyStrip line) = some false) :
    processLine st line =
      if st.dialogueBuffer = [] then
        { st with dialogueBuffer := st.dialogueBuffer ++ [pyStrip line] }
      else
        { st with processed := st.processed ++
            [dialogueRecordOf st, ⟨RType.ACTION, pyStrip line, st.currentScene⟩],
                  dialogueBuffer := [], inDialogueMode := false,
                  currentCharacter := none } := by
  have hb : (pyStrip line).isEmpty = false := isEmpty_false_of_headingCand hh
  by_cases hbe : st.dialogueBuffer = []
  · have hfr : flushReset st = st := by
      unfold flushReset
      rw [if_neg]
      rw [hbe]
      simp
    rw [if_pos hbe]
    simp only [processLine, hb, hh, hd, hm, hq, hfr, hmode, hchar, hsw]
    simp [bufferLine, hmode, hchar]
  · have hbne : st.dialogueBuffer.isEmpty = false := by
      cases h' : st.dialogueBuffer with
      | nil => exact absurd h' hbe
      | cons a l => rfl
    have hfr : flushReset st =
        { st with processed := st.processed ++ [dialogueRecordOf st],
                  dialogueBuffer := [], inDialogueMode := false,
                  currentCharacter := none } := by
      unfold flushReset
      rw [if_pos]
      rw [hmode, hbne]
      rfl
    rw [if_neg hbe]
    simp only [processLine, hb, hh, hd, hm, hq, hfr]
    simp [emitAction]

/-! ## The claims -/

/-- C1, counterexample: for the single-line input `"LUKE (CONT'D)"` the
only emitted record is the CHARACTER record with text `"LUKE"`, so the
concatenation of all emitted text does not contain the line's trimmed
content — the cue line's `(CONT'D)` annotation is cut, refuting the claim
that every non-blank line's trimmed content is contained. -/
theorem c1_counterexample :
    pyStrip (toL "LUKE (CONT'D)") ≠ [] ∧
    ¬ SubSeg (pyStrip (toL "LUKE (CONT'D)"))
        (allText (pipeline [toL "LUKE (CONT'D)"])) := by
  constructor
  · decide
  · intro hsub
    obtain ⟨l, r, hr⟩ := hsub
    have h1 : allText (pipeline [toL "LUKE (CONT'D)"]) = toL "LUKE" := by decide
    have h2 : pyStrip (toL "LUKE (CONT'D)") = toL "LUKE (CONT'D)" := by decide
    have hlen1 : (toL "LUKE").length = 4 := by decide
    have hlen2 : (toL "LUKE (CONT'D)").length = 13 := by decide
    rw [h1, h2] at hr
    have hlen := congrArg List.length hr
    rw [hlen1] at hlen
    simp only [List.length_append, hlen2] at hlen
    omega

/-- C1 (amended): no text content is lost up to cue normalization — for
every non-blank input line, the concatenation of all emitted records'
text contains the line's trimmed content, or (when the line is consumed
as a character cue) its trimmed content with the `(CONT'D)`-style
annotations removed. -/
theorem c1_no_text_lost_amended (lines : List (List Char)) (line : List Char)
    (h1 : line ∈ lines) (h2 : pyStrip line ≠ []) :
    SubSeg (pyStrip line) (allText (pipeline lines)) ∨
    SubSeg (pyStrip (stripContD (pyStrip line))) (allText (pipeline lines)) := by
  have hne : (pyStrip line).isEmpty = false := by
    cases h' : pyStrip line with
    | nil => exact absurd h' h2
    | cons a l => rfl
  rcases reprS_lines lines initState line h1 hne with h | h
  · exact Or.inl (subseg_allText (consolidate_repr _
      (repr_finalFlush (runLines lines) (aInv_runLines lines) h)))
  · exact Or.inr (subseg_allText (consolidate_repr _
      (repr_finalFlush (runLines lines) (aInv_runLines lines) h)))

/-- Witness for C1 (amended) at the concrete input `["HELLO"]`. -/
theorem c1_witness :
    (toL "HELLO" ∈ [toL "HELLO"] ∧ pyStrip (toL "HELLO") ≠ []) ∧
    (SubSeg (pyStrip (toL "HELLO")) (allText (pipeline [toL "HELLO"])) ∨
     SubSeg (pyStrip (stripContD (pyStrip (toL "HELLO"))))
       (allText (pipeline [toL "HELLO"]))) :=
  ⟨⟨by decide, by decide⟩,
    c1_no_text_lost_amended [toL "HELLO"] (toL "HELLO") (by decide) (by decide)⟩

/-- C2: every DIALOGUE/ACTION/CHARACTER record's scene field equals the
text of the most recently emitted SCENE record before it (or none if no
SCENE record precedes it), both for the assembled sequence and for the
output of the consolidation pass. -/
theorem c2_scene_attachment (lines : List (List Char)) :
    SceneOK none (assemble lines) ∧ SceneOK none (pipeline lines) :=
  ⟨sceneOK_assemble lines, sceneOK_consolidate _ (sceneOK_assemble lines)⟩

/-- C3, counterexample: after the single cue line `"LUKE"` the assembler
is in dialogue mode with an empty buffer; processing a blank line leaves
the state completely unchanged — the in-dialogue flag stays set and the
current character stays `"LUKE"`, refuting the claim that blank lines
clear the character and flag even when the buffer is empty. -/
theorem c3_counterexample :
    (runLines [toL "LUKE"]).inDialogueMode = true ∧
    (runLines [toL "LUKE"]).dialogueBuffer = [] ∧
    processLine (runLines [toL "LUKE"]) [] = runLines [toL "LUKE"] ∧
    (processLine (runLines [toL "LUKE"]) []).currentCharacter =
      some (toL "LUKE") := by decide

/-- C3 (amended): on a blank line, the dialogue buffer is flushed as a
Dialogue record and the character and flag are cleared only when the flag
is set and the buffer is non-empty; otherwise — in particular on a blank
line immediately after a character cue — the state is unchanged.  No
record is emitted for the blank line itself. -/
theorem c3_blank_line_amended (st : AState) (line : List Char)
    (h : pyStrip line = []) :
    processLine st line =
      if st.inDialogueMode = true ∧ st.dialogueBuffer ≠ [] then
        { st with processed := st.processed ++ [dialogueRecordOf st],
                  dialogueBuffer := [], inDialogueMode := false,
                  currentCharacter := none }
      else st :=
  processLine_blank st line h

/-- Witness for C3 (amended): a blank line flushes a non-empty buffer. -/
theorem c3_witness :
    pyStrip ([] : List Char) = [] ∧
    processLine ⟨[], none, some (toL "LUKE"), [toL "Hi"], true⟩ [] =
      ⟨[⟨RType.DIALOGUE, toL "Hi", none⟩], none, none, [], false⟩ :=
  ⟨rfl, c3_blank_line_amended ⟨[], none, some (toL "LUKE"), [toL "Hi"], true⟩ [] rfl⟩

/-- C4: the paragraph consolidation pass is idempotent — applying it
twice to any record sequence yields the same result as applying it
once. -/
theorem c4_consolidation_idempotent (rs : List Record) :
    consolidate (consolidate rs) = consolidate rs :=
  consolidate_id_of_noAdj _ (noAdj_consolidate rs)

/-- C5, counterexample: `"FADE TO BLACK"` is upper case, of length 13
(greater than 5, at most 20), does not start with a digit, contains no
heading marker, and fails cue qualification (exclusion `"FADE"`); it does
not match the action heuristic.  Received in dialogue mode with an active
cue and a non-empty buffer, it nevertheless flushes the pending dialogue
and is emitted as an ACTION record — not appended to the buffer as the
claim states. -/
theorem c5_counterexample :
    headingCand (toL "FADE TO BLACK") = true ∧
    startsDigit (toL "FADE TO BLACK") = false ∧
    (toL "FADE TO BLACK").length ≤ 20 ∧
    isSceneMarked (toL "FADE TO BLACK") = false ∧
    cueQual (pyStrip (stripContD (toL "FADE TO BLACK"))) = false ∧
    startsActionWord (toL "FADE TO BLACK") = false ∧
    (runLines [toL "LUKE", toL "Hello there"]).inDialogueMode = true ∧
    truthyStr (runLines [toL "LUKE", toL "Hello there"]).currentCharacter = true ∧
    assemble [toL "LUKE", toL "Hello there", toL "FADE TO BLACK"] =
      [⟨RType.CHARACTER, toL "LUKE", none⟩,
       ⟨RType.DIALOGUE, toL "Hello there", none⟩,
       ⟨RType.ACTION, toL "FADE TO BLACK", none⟩] := by decide

/-- C5 (amended): a short all-caps heading-candidate line that matches no
heading sub-rule and fails cue qualification, received in dialogue mode
with an active cue and not matching the action heuristic, is appended to
the dialogue buffer only when the buffer is empty; when the buffer is
non-empty, the heading-candidate stage has already flushed the buffer and
ended dialogue mode, and the line is emitted as an ACTION record. -/
theorem c5_heading_candidate_amended (st : AState) (line : List Char)
    (hh : headingCand (pyStrip line) = true)
    (hd : startsDigit (pyStrip line) = false)
    (hm : isSceneMarked (pyStrip line) = false)
    (hq : cueQual (pyStrip (stripContD (pyStrip line))) = false)
    (hmode : st.inDialogueMode = true)
    (hchar : truthyStr st.currentCharacter = true)
    (hsw : actionSwitchTest line (pyStrip line) = some false) :
    processLine st line =
      if st.dialogueBuffer = [] then
        { st with dialogueBuffer := st.dialogueBuffer ++ [pyStrip line] }
      else
        { st with processed := st.processed ++
            [dialogueRecordOf st, ⟨RType.ACTION, pyStrip line, st.currentScene⟩],
                  dialogueBuffer := [], inDialogueMode := false,
                  currentCharacter := none } :=
  processLine_headingCand_fallthrough st line hh hd hm hq hmode hchar hsw

/-- Witness for C5 (amended) in a dialogue-mode state with a non-empty
buffer, on the line `"FADE TO BLACK"`. -/
theorem c5_witness :
    processLine ⟨[], none, some (toL "LUKE"), [toL "Hi"], true⟩
        (toL "FADE TO BLACK") =
      ⟨[⟨RType.DIALOGUE, toL "Hi", none⟩,
        ⟨RType.ACTION, toL "FADE TO BLACK", none⟩], none, none, [], false⟩ :=
  c5_heading_candidate_amended ⟨[], none, some (toL "LUKE"), [toL "Hi"], true⟩
    (toL "FADE TO BLACK") (by decide) (by decide) (by decide) (by decide)
    (by decide) (by decide) (by decide)

/-- C6: no DIALOGUE record with empty text is ever emitted by the full
pipeline. -/
theorem c6_no_empty_dialogue (lines : List (List Char)) (r : Record)
    (h : r ∈ pipeline lines) (hd : r.rtype = RType.DIALOGUE) : r.text ≠ [] := by
  have hna : r.rtype ≠ RType.ACTION := by rw [hd]; simp
  exact assemble_dialogue_ne_nil lines r (consolidate_nonaction_mem _ r h hna) hd

/-- Witness for C6 at the concrete input `["LUKE", "Hi"]`. -/
theorem c6_witness :
    ((⟨RType.DIALOGUE, toL "Hi", none⟩ : Record) ∈ pipeline [toL "LUKE", toL "Hi"] ∧
      (⟨RType.DIALOGUE, toL "Hi", none⟩ : Record).rtype = RType.DIALOGUE) ∧
    (⟨RType.DIALOGUE, toL "Hi", none⟩ : Record).text ≠ [] :=
  ⟨⟨by decide, by decide⟩,
    c6_no_empty_dialogue [toL "LUKE", toL "Hi"] ⟨RType.DIALOGUE, toL "Hi", none⟩
      (by decide) (by decide)⟩

/-- C7: the input line `"LUKE (CONT'D)"` produces exactly one CHARACTER
record with text `"LUKE"`: the trailing continuation annotation is
stripped before cue qualification and the stripped, normalized name is
what the record carries. -/
theorem c7_contd_cue :
    pipeline [toL "LUKE (CONT'D)"] = [⟨RType.CHARACTER, toL "LUKE", none⟩] ∧
    pyStrip (stripContD (pyStrip (toL "LUKE (CONT'D)"))) = toL "LUKE" := by decide

/-- C8: the core transformation is total — the guarded first-character
test never fails (it is `some` on every line, the empty line included),
and the two passes are total functions producing a record sequence for
every input line sequence, the empty one included. -/
theorem c8_totality :
    (∀ line stripped : List Char, actionSwitchTest line stripped ≠ none) ∧
    (∀ lines : List (List Char), ∃ rs : List Record, pipeline lines = rs) ∧
    pipeline [] = [] :=
  ⟨fun line s => actionSwitchTest_ne_none line s,
    fun lines => ⟨pipeline lines, rfl⟩, rfl⟩

/-- C9: the implicit assembler state invariant — in dialogue mode the
current character is non-null, and a non-empty dialogue buffer implies
dialogue mode — holds initially, is preserved by every iteration of the
main loop, and therefore holds after any run. -/
theorem c9_state_invariant :
    AInv initState ∧
    (∀ (st : AState) (line : List Char), AInv st → AInv (processLine st line)) ∧
    (∀ lines : List (List Char), AInv (runLines lines)) :=
  ⟨aInv_initState, aInv_step, aInv_runLines⟩

/-- Witness for C9: the invariant is preserved across a concrete step. -/
theorem c9_witness :
    AInv initState ∧ AInv (processLine initState (toL "LUKE")) :=
  ⟨c9_state_invariant.1,
    c9_state_invariant.2.1 initState (toL "LUKE")
      (by constructor <;> simp [AInv, initState])⟩

/-- C10: in the consolidated output, no two adjacent records are both
ACTION records with the same scene value. -/
theorem c10_no_adjacent_same_scene_actions (rs : List Record) :
    List.Chain' AdjOK (consolidate rs) :=
  noAdj_consolidate rs

end Script
